import Mathlib

/-!
Verification development for the bitbank connectivity adapter.

The definitions below are shallow embeddings of the Rust sources:
the order-book engine (`OrderBook`, `apply_whole`, `apply_diff`, `get_asks`,
`get_bids`, `get_top_n`) from `src/model/orderbook.rs`; request signing and
response-envelope handling from `src/client/rest.rs`; the reconnect and
long-poll backoff loops from `src/client/data_client.rs` and
`src/client/pubnub.rs`; and order submission plus the private-feed message
loop from `src/client/execution_client.rs`.

A `BTreeMap<String, String>` ladder is modelled as a strictly sorted
association list ordered by `strLtB`, an explicit byte-wise (scalar-value)
lexicographic comparison matching Rust's `Ord for String` on the ASCII price
strings the exchange uses.  A `HashMap` is an association list with
replace-on-insert.  Machine integers are `Nat`/`Int`, with the `as i32` cast
explicit where it occurs.  JSON values are the `Json` inductive; serde
decoding and serialisation are modelled by explicit functions.

All definitions are computable, so concrete runs evaluate by `decide`/`rfl`.
-/

namespace Bitbank

/-! Byte-wise string order: Rust compares `String` keys lexicographically
over their UTF-8 bytes, which agrees with lexicographic comparison of
Unicode scalar values. -/

/-- Lexicographic strict comparison of char lists by scalar value. -/
def charListLtB : List Char → List Char → Bool
  | _, [] => false
  | [], _ :: _ => true
  | a :: as, b :: bs =>
    if a < b then true else if b < a then false else charListLtB as bs

/-- Byte-wise lexicographic strict comparison of strings (Rust's key order
in `BTreeMap<String, _>`). -/
def strLtB (a b : String) : Bool := charListLtB a.toList b.toList

/-! Sorted association lists: the `BTreeMap<String, String>` ladders. -/

/-- Insert into a key-sorted association list, replacing an existing key.
Mirrors `BTreeMap::insert`. -/
def alInsert : List (String × String) → String → String → List (String × String)
  | [], k, v => [(k, v)]
  | (k', v') :: t, k, v =>
    if strLtB k k' then (k, v) :: (k', v') :: t
    else if k = k' then (k, v) :: t
    else (k', v') :: alInsert t k v

/-- Remove a key from the association list.  Mirrors `BTreeMap::remove`. -/
def alRemove : List (String × String) → String → List (String × String)
  | [], _ => []
  | (k', v') :: t, k => if k = k' then t else (k', v') :: alRemove t k

/-- Lookup in the association list.  Mirrors `BTreeMap::get`. -/
def alLookup : List (String × String) → String → Option String
  | [], _ => none
  | (k', v') :: t, k => if k = k' then some v' else alLookup t k

/-- Key-sortedness: the representation invariant of `BTreeMap`. -/
def ladderSorted (m : List (String × String)) : Prop :=
  m.Pairwise (fun x y => strLtB x.1 y.1 = true)

/-! Order-book data model (`src/model/market_data.rs`,
`src/model/orderbook.rs`). -/

/-- Model of `Depth` from `market_data.rs`: an order-book snapshot;
`s` (the sequence) is optional. -/
structure Depth where
  asks : List (List String)
  bids : List (List String)
  timestamp : Nat
  s : Option Nat

/-- Model of `DepthDiff` from `market_data.rs`: an incremental update;
the sequence `s` is mandatory. -/
structure DepthDiff where
  asks : List (List String)
  bids : List (List String)
  timestamp : Nat
  s : Nat

/-- Model of `OrderBook` from `orderbook.rs`: price→amount ladders plus
sequence and timestamp. -/
structure OrderBook where
  pair : String
  asks : List (String × String)
  bids : List (String × String)
  sequence : Nat
  timestamp : Nat

/-- Model of `OrderBook::new`. -/
def OrderBook.new (pair : String) : OrderBook :=
  { pair := pair, asks := [], bids := [], sequence := 0, timestamp := 0 }

/-- One iteration of the `apply_whole` level loop:
`if level.len() >= 2 { map.insert(level[0], level[1]) }`. -/
def applyWholeLevel (m : List (String × String)) (level : List String) :
    List (String × String) :=
  match level with
  | price :: amount :: _ => alInsert m price amount
  | _ => m

/-- Model of `OrderBook::apply_whole`: clear both ladders, refill from the
snapshot, set `sequence = depth.s.unwrap_or(0)` and the timestamp. -/
def apply_whole (b : OrderBook) (depth : Depth) : OrderBook :=
  { b with
    asks := depth.asks.foldl applyWholeLevel []
    bids := depth.bids.foldl applyWholeLevel []
    sequence := depth.s.getD 0
    timestamp := depth.timestamp }

/-- One iteration of the `apply_diff` level loop: delete the price when the
amount is exactly `"0"` or `"0.0000"`, otherwise upsert. -/
def applyDiffLevel (m : List (String × String)) (level : List String) :
    List (String × String) :=
  match level with
  | price :: amount :: _ =>
    if amount = "0" ∨ amount = "0.0000" then alRemove m price
    else alInsert m price amount
  | _ => m

/-- Model of `OrderBook::apply_diff`: ignore stale diffs
(`diff.s <= self.sequence`), otherwise fold the level loop over both sides
and update sequence/timestamp. -/
def apply_diff (b : OrderBook) (diff : DepthDiff) : OrderBook :=
  if diff.s ≤ b.sequence then b
  else
    { b with
      asks := diff.asks.foldl applyDiffLevel b.asks
      bids := diff.bids.foldl applyDiffLevel b.bids
      sequence := diff.s
      timestamp := diff.timestamp }

/-- Model of `OrderBook::get_asks`: ladder in map (ascending-key) order. -/
def get_asks (b : OrderBook) : List (List String) :=
  b.asks.map (fun pa => [pa.1, pa.2])

/-- Model of `OrderBook::get_bids`: ladder reversed (descending-key order). -/
def get_bids (b : OrderBook) : List (List String) :=
  b.bids.reverse.map (fun pa => [pa.1, pa.2])

/-- Model of `OrderBook::get_top_n`: the first `n` asks and the first `n`
reversed bids. -/
def get_top_n (b : OrderBook) (n : Nat) :
    List (List String) × List (List String) :=
  ((b.asks.take n).map (fun pa => [pa.1, pa.2]),
   (b.bids.reverse.take n).map (fun pa => [pa.1, pa.2]))

/-- Well-formedness of a book: both ladders key-sorted (the `BTreeMap`
representation invariant). -/
def OrderBook.Wf (b : OrderBook) : Prop :=
  ladderSorted b.asks ∧ ladderSorted b.bids

/-! Spec-side decimal ordering (for C3).  The spec demands ordering "by
parsed decimal value, not byte-wise string comparison".  The following
definitions follow the spec's words; there is no decimal parser in the
source, whose ladders are keyed by raw strings. -/

/-- Spec-side: parse a list of characters as a base-10 natural number
(`none` when empty or containing a non-digit). -/
def digitsToNat? (l : List Char) : Option Nat :=
  if l = [] then none
  else
    l.foldl
      (fun acc c =>
        acc.bind (fun n => if c.isDigit then some (n * 10 + (c.toNat - 48)) else none))
      (some 0)

/-- Spec-side: split a char list at every `'.'`. -/
def splitOnDot : List Char → List (List Char)
  | [] => [[]]
  | c :: rest =>
    if c = '.' then [] :: splitOnDot rest
    else
      match splitOnDot rest with
      | h :: t => (c :: h) :: t
      | [] => [[c]]

/-- Spec-side: the decimal value of a price string, as a scaled integer
together with its number of fraction digits: `"12.5" ↦ (125, 1)`. -/
def decParts (s : String) : Option (Nat × Nat) :=
  match splitOnDot s.toList with
  | [i] => (digitsToNat? i).map (fun n => (n, 0))
  | [i, f] =>
    match digitsToNat? i, digitsToNat? f with
    | some a, some b => some (a * 10 ^ f.length + b, f.length)
    | _, _ => none
  | _ => none

/-- Spec-side: strict "less than" on price strings interpreted as decimal
numbers (cross-multiplied to a common scale). -/
def decimalLtB (a b : String) : Bool :=
  match decParts a, decParts b with
  | some x, some y => decide (x.1 * 10 ^ y.2 < y.1 * 10 ^ x.2)
  | _, _ => false

/-! Reconnect / long-poll backoff (`data_client.rs`, `pubnub.rs`). -/

/-- Outcome of one connection / poll attempt. -/
inductive ConnOutcome where
  | ok
  | fail
deriving DecidableEq

/-- Model of the `data_client.rs` `connect` loop: every iteration ends with
`sleep(backoff_sec)` followed by `backoff_sec = (backoff_sec * 2).min(64)`;
a successful `connect_async` first resets `backoff_sec = 1`.
`dcRun b outcomes` returns the final `backoff_sec` and the list of delays
slept, one per iteration. -/
def dcRun : Nat → List ConnOutcome → Nat × List Nat
  | b, [] => (b, [])
  | _, .ok :: rest =>
    let r := dcRun (min (1 * 2) 64) rest
    (r.1, 1 :: r.2)
  | b, .fail :: rest =>
    let r := dcRun (min (b * 2) 64) rest
    (r.1, b :: r.2)

/-- Model of the `pubnub.rs` `connect` loop: a successful poll resets
`backoff_sec = 1` and continues without sleeping; a transient failure sleeps
`backoff_sec` seconds and then sets `backoff_sec = (backoff_sec * 2).min(64)`.
`pnRun b outcomes` returns the final `backoff_sec` and the delays slept. -/
def pnRun : Nat → List ConnOutcome → Nat × List Nat
  | b, [] => (b, [])
  | _, .ok :: rest => pnRun 1 rest
  | b, .fail :: rest =>
    let r := pnRun (min (b * 2) 64) rest
    (r.1, b :: r.2)

/-- Helper: the delay sequence for `n` consecutive failures starting from
backoff `b`, under the shared `(b * 2).min(64)` update. -/
def failDelays : Nat → Nat → List Nat
  | _, 0 => []
  | b, n + 1 => b :: failDelays (min (b * 2) 64) n

/-! JSON model (`serde_json::Value`) and the error taxonomy
(`src/error.rs`). -/

/-- Minimal model of `serde_json::Value`.  Numbers are modelled as integers;
the payload fields relevant here (ids, codes, sequences, flags) are
integral, and `as_i64` on a non-integral number yields `None` just as a
non-numeric value does. -/
inductive Json where
  | null : Json
  | bool (b : Bool) : Json
  | num (n : Int) : Json
  | str (s : String) : Json
  | arr (elems : List Json) : Json
  | obj (fields : List (String × Json)) : Json

/-- First-match field lookup in an object's field list. -/
def jGet : List (String × Json) → String → Option Json
  | [], _ => none
  | (k', v) :: t, k => if k' = k then some v else jGet t k

/-- Model of `Value::get(key)`: a field of an object, `None` on
non-objects. -/
def Json.get : Json → String → Option Json
  | .obj fields, k => jGet fields k
  | _, _ => none

/-- Model of `Value::as_i64`. -/
def Json.as_i64 : Json → Option Int
  | .num n => some n
  | _ => none

/-- Model of `Value::as_str`. -/
def Json.as_str : Json → Option String
  | .str s => some s
  | _ => none

mutual

/-- Compact serialisation of a JSON value (`Value::to_string`); string
escaping is not modelled (the payloads of interest carry no quotes or
backslashes). -/
def jsonToString : Json → String
  | .null => "null"
  | .bool true => "true"
  | .bool false => "false"
  | .num n => toString n
  | .str s => "\"" ++ s ++ "\""
  | .arr elems => "[" ++ jsonListToString elems ++ "]"
  | .obj fields => "\x7b" ++ jsonFieldsToString fields ++ "\x7d"

/-- Comma-separated serialisation of array elements. -/
def jsonListToString : List Json → String
  | [] => ""
  | [x] => jsonToString x
  | x :: y :: t => jsonToString x ++ "," ++ jsonListToString (y :: t)

/-- Comma-separated serialisation of object fields. -/
def jsonFieldsToString : List (String × Json) → String
  | [] => ""
  | [(k, v)] => "\"" ++ k ++ "\":" ++ jsonToString v
  | (k, v) :: y :: t =>
    "\"" ++ k ++ "\":" ++ jsonToString v ++ "," ++ jsonFieldsToString (y :: t)

end

/-- Model of `BitbankError` from `src/error.rs` (transport-error payloads
carried as their message strings). -/
inductive BitbankError where
  | RequestError (msg : String)
  | WebSocketError (msg : String)
  | ParseError (msg : String)
  | AuthError (msg : String)
  | ExchangeError (code : Int) (message : String)
  | Unknown (msg : String)
deriving DecidableEq

/-- Decode-failure error kinds of the taxonomy: `ParseError` (a
`serde_json::Error`) and `Unknown` (an envelope-shape violation). -/
def isDecodeFailure : BitbankError → Bool
  | .ParseError _ => true
  | .Unknown _ => true
  | _ => false

/-! Orders (`src/model/order.rs`) and their serde decoding. -/

/-- Model of `Order` from `order.rs`.  `price`, `expire_at`, `triggered_at`
and `trigger_price` are optional; the last three carry `#[serde(default)]`. -/
structure Order where
  order_id : Nat
  pair : String
  side : String
  order_type : String
  start_amount : String
  remaining_amount : String
  executed_amount : String
  price : Option String
  average_price : String
  ordered_at : Nat
  status : String
  expire_at : Option Nat
  triggered_at : Option Nat
  trigger_price : Option String
deriving DecidableEq

/-- Serde: a required `u64` field. -/
def jReqNat (j : Json) (k : String) : Option Nat :=
  match j.get k with
  | some (.num n) => if 0 ≤ n then some n.toNat else none
  | _ => none

/-- Serde: a required string field. -/
def jReqStr (j : Json) (k : String) : Option String :=
  (j.get k).bind Json.as_str

/-- Serde: an `Option<String>` field; serde's derive deserialises a missing
or null `Option` field as `None`, and rejects non-string values. -/
def jReqOptStr (j : Json) (k : String) : Option (Option String) :=
  match j.get k with
  | none => some none
  | some .null => some none
  | some (.str s) => some (some s)
  | _ => none

/-- Serde: an `Option<u64>` field with `#[serde(default)]`. -/
def jDefOptNat (j : Json) (k : String) : Option (Option Nat) :=
  match j.get k with
  | none => some none
  | some .null => some none
  | some (.num n) => if 0 ≤ n then some (some n.toNat) else none
  | _ => none

/-- Serde: an `Option<String>` field with `#[serde(default)]`. -/
def jDefOptStr (j : Json) (k : String) : Option (Option String) :=
  match j.get k with
  | none => some none
  | some .null => some none
  | some (.str s) => some (some s)
  | _ => none

/-- Model of `serde_json::from_value::<Order>`. -/
def decodeOrder (j : Json) : Option Order := do
  let order_id ← jReqNat j "order_id"
  let pair ← jReqStr j "pair"
  let side ← jReqStr j "side"
  let order_type ← jReqStr j "type"
  let start_amount ← jReqStr j "start_amount"
  let remaining_amount ← jReqStr j "remaining_amount"
  let executed_amount ← jReqStr j "executed_amount"
  let price ← jReqOptStr j "price"
  let average_price ← jReqStr j "average_price"
  let ordered_at ← jReqNat j "ordered_at"
  let status ← jReqStr j "status"
  let expire_at ← jDefOptNat j "expire_at"
  let triggered_at ← jDefOptNat j "triggered_at"
  let trigger_price ← jDefOptStr j "trigger_price"
  some { order_id, pair, side, order_type, start_amount, remaining_amount,
         executed_amount, price, average_price, ordered_at, status,
         expire_at, triggered_at, trigger_price }

/-- Serialisation helper: a JSON string literal. -/
def jsonOfStr (s : String) : String := "\"" ++ s ++ "\""

/-- Serialisation helper: an optional JSON string (missing → `null`). -/
def jsonOfOptStr : Option String → String
  | none => "null"
  | some s => jsonOfStr s

/-- Serialisation helper: an optional JSON number (missing → `null`). -/
def jsonOfOptNat : Option Nat → String
  | none => "null"
  | some n => toString n

/-- Model of `serde_json::to_string::<Order>`: fields in declaration order,
`type` as the wire name of `order_type`. -/
def serializeOrder (o : Order) : String :=
  "\x7b\"order_id\":" ++ toString o.order_id ++
  ",\"pair\":" ++ jsonOfStr o.pair ++
  ",\"side\":" ++ jsonOfStr o.side ++
  ",\"type\":" ++ jsonOfStr o.order_type ++
  ",\"start_amount\":" ++ jsonOfStr o.start_amount ++
  ",\"remaining_amount\":" ++ jsonOfStr o.remaining_amount ++
  ",\"executed_amount\":" ++ jsonOfStr o.executed_amount ++
  ",\"price\":" ++ jsonOfOptStr o.price ++
  ",\"average_price\":" ++ jsonOfStr o.average_price ++
  ",\"ordered_at\":" ++ toString o.ordered_at ++
  ",\"status\":" ++ jsonOfStr o.status ++
  ",\"expire_at\":" ++ jsonOfOptNat o.expire_at ++
  ",\"triggered_at\":" ++ jsonOfOptNat o.triggered_at ++
  ",\"trigger_price\":" ++ jsonOfOptStr o.trigger_price ++ "\x7d"

/-! HashMap model for `orders: HashMap<u64, Order>` and
`client_oid_map: HashMap<String, u64>`. -/

/-- Insert with replacement (`HashMap::insert`). -/
def hmInsert {α β : Type} [DecidableEq α] :
    List (α × β) → α → β → List (α × β)
  | [], k, v => [(k, v)]
  | (k', v') :: t, k, v =>
    if k' = k then (k, v) :: t else (k', v') :: hmInsert t k v

/-- Lookup (`HashMap::get`). -/
def hmLookup {α β : Type} [DecidableEq α] : List (α × β) → α → Option β
  | [], _ => none
  | (k', v') :: t, k => if k' = k then some v' else hmLookup t k

/-! Execution client (`src/client/execution_client.rs`). -/

/-- The mutable state of `BitbankExecutionClient`: the order cache and the
client-order-id map. -/
structure ExecState where
  orders : List (Nat × Order)
  client_oid_map : List (String × Nat)

/-- Model of `submit_order`: the REST call's outcome is the
`create_order_result` input.  On success the order is inserted keyed by its
exchange id, the client id is mapped to that id, and the serialised order —
read back from the cache as in the source (`orders_read.get(&oid).unwrap()`)
— is returned.  On failure the `?` operator propagates the error before any
insertion. -/
def submit_order (st : ExecState) (client_order_id : String)
    (create_order_result : Except BitbankError Order) :
    Except BitbankError String × ExecState :=
  match create_order_result with
  | .error e => (.error e, st)
  | .ok order_res =>
    let oid := order_res.order_id
    let orders' := hmInsert st.orders oid order_res
    let map' := hmInsert st.client_oid_map client_order_id oid
    match hmLookup orders' oid with
    | some stored =>
      (.ok (serializeOrder stored), { orders := orders', client_oid_map := map' })
    | none =>
      (.error (.Unknown "unwrap on just-inserted order"),
       { orders := orders', client_oid_map := map' })

/-- Envelope of a private-feed message as consumed by the internal loop of
`execution_client.rs` (`msg.data.method`, `msg.data.params`). -/
structure PubNubMessageData where
  method : String
  params : List Json

/-- Model of the `PubNubMessage` envelope: `{ data: { method, params } }`. -/
structure PubNubMessage where
  data : PubNubMessageData

/-- The `method → event_type` mapping of the internal loop. -/
def eventTypeOf (method : String) : String :=
  if method = "spot_order_new" ∨ method = "spot_order" then "OrderUpdate"
  else if method = "spot_trade" then "TradeUpdate"
  else if method = "asset_update" then "AssetUpdate"
  else method

/-- Processing of one `params` entry: for an `OrderUpdate` the entry is
decoded as an `Order` and, when that succeeds, upserted into the cache;
in every case a `(event_type, param.to_string())` delivery is produced. -/
def processParam (orders : List (Nat × Order)) (event_type : String)
    (param : Json) : List (Nat × Order) × (String × String) :=
  let orders' :=
    if event_type = "OrderUpdate" then
      match decodeOrder param with
      | some od => hmInsert orders od.order_id od
      | none => orders
    else orders
  (orders', (event_type, jsonToString param))

/-- Processing of one parsed private-feed message: fold `processParam` over
the `params` array, collecting the deliveries to the external sink in array
order. -/
def processPrivateMessage (orders : List (Nat × Order)) (msg : PubNubMessage) :
    List (Nat × Order) × List (String × String) :=
  let event_type := eventTypeOf msg.data.method
  msg.data.params.foldl
    (fun acc param =>
      let r := processParam acc.1 event_type param
      (r.1, acc.2 ++ [r.2]))
    (orders, [])

/-! Request signing (`src/client/rest.rs`): HMAC-SHA256 over the signing
string, hex-encoded with lowercase digits. -/

/-- Truncate to 32 bits. -/
def w32 (n : Nat) : Nat := n % 4294967296

/-- 32-bit right rotation. -/
def rotr32 (x n : Nat) : Nat := w32 ((x >>> n) ||| (x <<< (32 - n)))

/-- SHA-256 choice function. -/
def shaCh (x y z : Nat) : Nat := (x &&& y) ^^^ ((x ^^^ 4294967295) &&& z)

/-- SHA-256 majority function. -/
def shaMaj (x y z : Nat) : Nat := (x &&& y) ^^^ (x &&& z) ^^^ (y &&& z)

/-- SHA-256 big sigma 0. -/
def shaBigSigma0 (x : Nat) : Nat := rotr32 x 2 ^^^ rotr32 x 13 ^^^ rotr32 x 22

/-- SHA-256 big sigma 1. -/
def shaBigSigma1 (x : Nat) : Nat := rotr32 x 6 ^^^ rotr32 x 11 ^^^ rotr32 x 25

/-- SHA-256 small sigma 0. -/
def shaSmallSigma0 (x : Nat) : Nat := rotr32 x 7 ^^^ rotr32 x 18 ^^^ (x >>> 3)

/-- SHA-256 small sigma 1. -/
def shaSmallSigma1 (x : Nat) : Nat := rotr32 x 17 ^^^ rotr32 x 19 ^^^ (x >>> 10)

/-- SHA-256 round constants. -/
def shaK : List Nat :=
  [1116352408, 1899447441, 3049323471, 3921009573, 961987163,
   1508970993, 2453635748, 2870763221, 3624381080, 310598401,
   607225278, 1426881987, 1925078388, 2162078206, 2614888103,
   3248222580, 3835390401, 4022224774, 264347078, 604807628,
   770255983, 1249150122, 1555081692, 1996064986, 2554220882,
   2821834349, 2952996808, 3210313671, 3336571891, 3584528711,
   113926993, 338241895, 666307205, 773529912, 1294757372,
   1396182291, 1695183700, 1986661051, 2177026350, 2456956037,
   2730485921, 2820302411, 3259730800, 3345764771, 3516065817,
   3600352804, 4094571909, 275423344, 430227734, 506948616,
   659060556, 883997877, 958139571, 1322822218, 1537002063,
   1747873779, 1955562222, 2024104815, 2227730452, 2361852424,
   2428436474, 2756734187, 3204031479, 3329325298]

/-- SHA-256 initial hash state. -/
def shaH0 : List Nat :=
  [1779033703, 3144134277, 1013904242, 2773480762,
   1359893119, 2600822924, 528734635, 1541459225]

/-- Big-endian 8-byte encoding of a number. -/
def be64 (n : Nat) : List Nat :=
  [(n >>> 56) &&& 255, (n >>> 48) &&& 255, (n >>> 40) &&& 255,
   (n >>> 32) &&& 255, (n >>> 24) &&& 255, (n >>> 16) &&& 255,
   (n >>> 8) &&& 255, n &&& 255]

/-- SHA-256 message padding to a multiple of 64 bytes. -/
def sha256Pad (msg : List Nat) : List Nat :=
  let L := msg.length
  let padLen := (64 - ((L + 9) % 64)) % 64
  msg ++ 128 :: List.replicate padLen 0 ++ be64 (8 * L)

/-- Split a byte list into 64-byte blocks (structural recursion on a fuel
bound so that concrete hashes evaluate in the kernel; the fuel, the list
length, always suffices since every step consumes at least one byte). -/
def chunks64Aux : Nat → List Nat → List (List Nat)
  | 0, _ => []
  | _, [] => []
  | fuel + 1, x :: xs => ((x :: xs).take 64) :: chunks64Aux fuel ((x :: xs).drop 64)

/-- Split a byte list into 64-byte blocks. -/
def chunks64 (l : List Nat) : List (List Nat) := chunks64Aux l.length l

/-- Combine bytes into big-endian 32-bit words. -/
def wordsOfBytes : List Nat → List Nat
  | b0 :: b1 :: b2 :: b3 :: rest =>
    (((b0 * 256 + b1) * 256 + b2) * 256 + b3) :: wordsOfBytes rest
  | _ => []

/-- Extend the 16-word block to the 64-word message schedule (the argument
counts the number of extension steps, 48 in SHA-256). -/
def extendSchedule (w : List Nat) : Nat → List Nat
  | 0 => w
  | t + 1 =>
    let w' := extendSchedule w t
    let l := w'.length
    w' ++ [w32 (shaSmallSigma1 (w'.getD (l - 2) 0) + w'.getD (l - 7) 0 +
                shaSmallSigma0 (w'.getD (l - 15) 0) + w'.getD (l - 16) 0)]

/-- One SHA-256 compression round on the 8-word working state. -/
def shaCompressWord (s : List Nat) (kt wt : Nat) : List Nat :=
  match s with
  | [a, b, c, d, e, f, g, h] =>
    let t1 := w32 (h + shaBigSigma1 e + shaCh e f g + kt + wt)
    let t2 := w32 (shaBigSigma0 a + shaMaj a b c)
    [w32 (t1 + t2), a, b, c, w32 (d + t1), e, f, g]
  | _ => s

/-- Process one 64-byte block into the running hash state. -/
def shaProcessBlock (h : List Nat) (block : List Nat) : List Nat :=
  let w := extendSchedule (wordsOfBytes block) 48
  let s := (List.zip shaK w).foldl (fun s kw => shaCompressWord s kw.1 kw.2) h
  (List.zip h s).map (fun hv => w32 (hv.1 + hv.2))

/-- SHA-256 of a byte list. -/
def sha256 (msg : List Nat) : List Nat :=
  let hs := (chunks64 (sha256Pad msg)).foldl shaProcessBlock shaH0
  hs.foldr
    (fun w acc =>
      ((w >>> 24) &&& 255) :: ((w >>> 16) &&& 255) ::
      ((w >>> 8) &&& 255) :: (w &&& 255) :: acc) []

/-- HMAC-SHA256 (RFC 2104), block size 64 bytes. -/
def hmacSha256 (key msg : List Nat) : List Nat :=
  let k0 := if 64 < key.length then sha256 key else key
  let k := k0 ++ List.replicate (64 - k0.length) 0
  let ipad := k.map (fun b => b ^^^ 0x36)
  let opad := k.map (fun b => b ^^^ 0x5c)
  sha256 (opad ++ sha256 (ipad ++ msg))

/-- The sixteen lowercase hex digits, as used by `hex::encode`. -/
def hexDigitChars : List Char := "0123456789abcdef".toList

/-- Lowercase hex encoding of one byte. -/
def hexByteChars (b : Nat) : List Char :=
  [hexDigitChars.getD (b / 16 % 16) '0', hexDigitChars.getD (b % 16) '0']

/-- Model of `hex::encode`: lowercase hex of a byte list. -/
def hexEncodeLower (bytes : List Nat) : String :=
  ⟨(bytes.map hexByteChars).flatten⟩

/-- Bytes of a string (`as_bytes`); Unicode scalar values, which equal the
UTF-8 bytes on the ASCII signing payloads used here. -/
def strBytes (s : String) : List Nat := s.toList.map Char.toNat

/-- Model of `BitbankRestClient::generate_signature`:
`hex::encode(HMAC-SHA256(api_secret, text))`. -/
def generate_signature (api_secret text : String) : String :=
  hexEncodeLower (hmacSha256 (strBytes api_secret) (strBytes text))

/-- Characters serde_urlencoded leaves unencoded: alphanumerics and
`*`, `-`, `.`, `_`. -/
def isUrlUnreserved (c : Char) : Bool :=
  c.isAlphanum || c = '*' || c = '-' || c = '.' || c = '_'

/-- Uppercase hex digit (percent-escapes use uppercase). -/
def hexDigitUpper (n : Nat) : Char :=
  "0123456789ABCDEF".toList.getD (n % 16) '0'

/-- Form-urlencoding of one character: unreserved kept, space becomes `+`,
anything else percent-escaped. -/
def percentEncodeChar (c : Char) : List Char :=
  if isUrlUnreserved c then [c]
  else if c = ' ' then ['+']
  else ['%', hexDigitUpper (c.toNat / 16), hexDigitUpper (c.toNat % 16)]

/-- Model of `serde_urlencoded::to_string` on a key-value list:
`k=v` pairs joined by `&`. -/
def formUrlencode (q : List (String × String)) : String :=
  String.intercalate "&"
    (q.map (fun kv =>
      (⟨(kv.1.toList.map percentEncodeChar).flatten⟩ : String) ++ "=" ++
      (⟨(kv.2.toList.map percentEncodeChar).flatten⟩ : String)))

/-- HTTP methods used by the client. -/
inductive HttpMethod where
  | GET
  | POST
  | PUT
  | DELETE
deriving DecidableEq

/-- The `path_for_sign` computation of `request`: the endpoint, plus `?` and
the urlencoded query string when a query is present. -/
def pathForSign (endpoint : String)
    (query : Option (List (String × String))) : String :=
  match query with
  | some q => endpoint ++ "?" ++ formUrlencode q
  | none => endpoint

/-- The `text_to_sign` computation of `request`: `timestamp + path_for_sign`
for GET, `timestamp + body.unwrap_or("")` for every other method. -/
def textToSign (method : HttpMethod) (endpoint : String)
    (query : Option (List (String × String))) (body : Option String)
    (timestamp : String) : String :=
  if method = HttpMethod.GET then timestamp ++ pathForSign endpoint query
  else timestamp ++ body.getD ""

/-! Response-envelope handling (`src/client/rest.rs`, 2xx path). -/

/-- Wrap-around cast `as i32` from a 64-bit integer. -/
def toI32 (n : Int) : Int := (n + 2147483648) % 4294967296 - 2147483648

/-- The 2xx response-envelope handling of `BitbankRestClient::request`:
`success` is read with `.and_then(as_i64).unwrap_or(0)`; on `success == 1`
the `data` field is decoded (`decodeData` stands for
`serde_json::from_value::<T>`, an `Err` becoming `ParseError` via `?`);
otherwise `data.code` / `data.message` are read with `unwrap_or(0)` /
`unwrap_or("Unknown error")` into an `ExchangeError`; a missing `data`
yields `Unknown`. -/
def processBody {T : Type} (decodeData : Json → Except String T)
    (text : String) (val : Json) : Except BitbankError T :=
  let success := ((val.get "success").bind Json.as_i64).getD 0
  if success = 1 then
    match val.get "data" with
    | some data =>
      match decodeData data with
      | .ok r => .ok r
      | .error e => .error (.ParseError e)
    | none => .error (.Unknown ("Success=1 but no data. Body: " ++ text))
  else
    match val.get "data" with
    | some data =>
      .error (.ExchangeError
        (toI32 (((data.get "code").bind Json.as_i64).getD 0))
        (((data.get "message").bind Json.as_str).getD "Unknown error"))
    | none => .error (.Unknown ("Success=0 and no data. Body: " ++ text))

end Bitbank

/-! Helper lemmas. -/

namespace Bitbank

theorem charListLtB_trans :
    ∀ {a b c : List Char}, charListLtB a b = true → charListLtB b c = true →
      charListLtB a c = true
  | a, [], _, hab, _ => by cases a <;> simp [charListLtB] at hab
  | _, _ :: _, [], _, hbc => by simp [charListLtB] at hbc
  | [], _ :: _, _ :: _, _, _ => by simp [charListLtB]
  | x :: as, y :: bs, z :: cs, hab, hbc => by
      simp only [charListLtB] at hab hbc ⊢
      by_cases hxy : x < y
      · by_cases hyz : y < z
        · rw [if_pos (lt_trans hxy hyz)]
        · rw [if_neg hyz] at hbc
          by_cases hzy : z < y
          · rw [if_pos hzy] at hbc; exact absurd hbc (by simp)
          · have hyzeq : y = z := le_antisymm (not_lt.mp hzy) (not_lt.mp hyz)
            rw [if_pos (hyzeq ▸ hxy)]
      · rw [if_neg hxy] at hab
        by_cases hyx : y < x
        · rw [if_pos hyx] at hab; exact absurd hab (by simp)
        · have hxyeq : x = y := le_antisymm (not_lt.mp hyx) (not_lt.mp hxy)
          subst hxyeq
          rw [if_neg hyx] at hab
          by_cases hxz : x < z
          · rw [if_pos hxz]
          · rw [if_neg hxz] at hbc ⊢
            by_cases hzx : z < x
            · rw [if_pos hzx] at hbc; exact absurd hbc (by simp)
            · rw [if_neg hzx] at hbc ⊢
              exact charListLtB_trans hab hbc

theorem charListLtB_irrefl : ∀ a : List Char, charListLtB a a = false
  | [] => rfl
  | x :: as => by
      simp only [charListLtB, if_neg (lt_irrefl x)]
      exact charListLtB_irrefl as

theorem charListLtB_total :
    ∀ {a b : List Char}, charListLtB a b = false → a ≠ b → charListLtB b a = true
  | [], [], _, hne => absurd rfl hne
  | [], _ :: _, hab, _ => by simp [charListLtB] at hab
  | _ :: _, [], _, _ => by simp [charListLtB]
  | x :: as, y :: bs, hab, hne => by
      simp only [charListLtB] at hab ⊢
      by_cases hxy : x < y
      · rw [if_pos hxy] at hab; exact absurd hab (by simp)
      · rw [if_neg hxy] at hab
        by_cases hyx : y < x
        · rw [if_pos hyx]
        · rw [if_neg hyx] at hab ⊢
          rw [if_neg hxy]
          have hxyeq : x = y := le_antisymm (not_lt.mp hyx) (not_lt.mp hxy)
          subst hxyeq
          exact charListLtB_total hab (fun h => hne (by rw [h]))

theorem strLtB_trans {a b c : String} (hab : strLtB a b = true)
    (hbc : strLtB b c = true) : strLtB a c = true :=
  charListLtB_trans hab hbc

theorem strLtB_irrefl (a : String) : strLtB a a = false :=
  charListLtB_irrefl a.toList

theorem strLtB_total {a b : String} (hab : strLtB a b = false) (hne : a ≠ b) :
    strLtB b a = true := by
  refine charListLtB_total hab (fun h => hne ?_)
  cases a; cases b
  exact congrArg String.mk (by simpa [String.toList] using h)

theorem strLtB_ne {a b : String} (h : strLtB a b = true) : a ≠ b := by
  intro he
  rw [he, strLtB_irrefl] at h
  exact absurd h (by simp)

theorem strLtB_false_of_not {a b : String} (h : ¬ strLtB a b = true) :
    strLtB a b = false := by
  cases hab : strLtB a b
  · rfl
  · exact absurd hab h

theorem mem_alInsert {k v : String} :
    ∀ {m : List (String × String)} {x}, x ∈ alInsert m k v → x = (k, v) ∨ x ∈ m
  | [], x, h => by
      simp only [alInsert, List.mem_singleton] at h
      exact Or.inl h
  | (k', v') :: t, x, h => by
      simp only [alInsert] at h
      by_cases h1 : strLtB k k' = true
      · rw [if_pos h1] at h
        rcases List.mem_cons.mp h with h | h
        · exact Or.inl h
        · exact Or.inr h
      · rw [if_neg h1] at h
        by_cases h2 : k = k'
        · rw [if_pos h2] at h
          rcases List.mem_cons.mp h with h | h
          · exact Or.inl h
          · exact Or.inr (List.mem_cons_of_mem _ h)
        · rw [if_neg h2] at h
          rcases List.mem_cons.mp h with h | h
          · exact Or.inr (h ▸ List.mem_cons_self _ _)
          · rcases mem_alInsert h with h' | h'
            · exact Or.inl h'
            · exact Or.inr (List.mem_cons_of_mem _ h')

theorem ladderSorted_alInsert {k v : String} :
    ∀ {m : List (String × String)}, ladderSorted m → ladderSorted (alInsert m k v)
  | [], _ => by simp [alInsert, ladderSorted]
  | (k', v') :: t, h => by
      rw [ladderSorted, List.pairwise_cons] at h
      obtain ⟨hk', ht⟩ := h
      rw [ladderSorted]
      simp only [alInsert]
      by_cases h1 : strLtB k k' = true
      · rw [if_pos h1]
        refine List.Pairwise.cons ?_ (List.Pairwise.cons hk' ht)
        intro x hx
        rcases List.mem_cons.mp hx with rfl | hx
        · exact h1
        · exact strLtB_trans h1 (hk' x hx)
      · rw [if_neg h1]
        by_cases h2 : k = k'
        · rw [if_pos h2]
          exact List.Pairwise.cons (fun x hx => h2 ▸ hk' x hx) ht
        · rw [if_neg h2]
          refine List.Pairwise.cons ?_ (ladderSorted_alInsert ht)
          intro x hx
          rcases mem_alInsert hx with rfl | hx
          · exact strLtB_total (strLtB_false_of_not h1) h2
          · exact hk' x hx

theorem alRemove_sublist (k : String) :
    ∀ m : List (String × String), (alRemove m k).Sublist m
  | [] => List.Sublist.refl _
  | (k', v') :: t => by
      simp only [alRemove]
      by_cases h : k = k'
      · rw [if_pos h]
        exact List.Sublist.cons _ (List.Sublist.refl t)
      · rw [if_neg h]
        exact List.Sublist.cons₂ _ (alRemove_sublist k t)

theorem ladderSorted_alRemove {k : String} {m : List (String × String)}
    (h : ladderSorted m) : ladderSorted (alRemove m k) :=
  List.Pairwise.sublist (alRemove_sublist k m) h

theorem alLookup_alInsert_self {k v : String} :
    ∀ m : List (String × String), alLookup (alInsert m k v) k = some v
  | [] => by simp [alInsert, alLookup]
  | (k', v') :: t => by
      simp only [alInsert]
      by_cases h1 : strLtB k k' = true
      · rw [if_pos h1]; simp [alLookup]
      · rw [if_neg h1]
        by_cases h2 : k = k'
        · rw [if_pos h2]; simp [alLookup]
        · rw [if_neg h2]
          simp only [alLookup, if_neg h2]
          exact alLookup_alInsert_self t

theorem alLookup_alInsert_ne {q k v : String} (hqk : q ≠ k) :
    ∀ m : List (String × String), alLookup (alInsert m k v) q = alLookup m q
  | [] => by simp [alInsert, alLookup, hqk]
  | (k', v') :: t => by
      simp only [alInsert]
      by_cases h1 : strLtB k k' = true
      · rw [if_pos h1]
        simp only [alLookup, if_neg hqk]
      · rw [if_neg h1]
        by_cases h2 : k = k'
        · rw [if_pos h2]
          have hqk' : q ≠ k' := h2 ▸ hqk
          simp only [alLookup, if_neg hqk, if_neg hqk']
        · rw [if_neg h2]
          by_cases h3 : q = k'
          · simp only [alLookup, if_pos h3]
          · simp only [alLookup, if_neg h3]
            exact alLookup_alInsert_ne hqk t

theorem alLookup_eq_none_of_forall_ne {k : String} :
    ∀ {m : List (String × String)}, (∀ x ∈ m, x.1 ≠ k) → alLookup m k = none
  | [], _ => rfl
  | (k', v') :: t, h => by
      have hk' : k' ≠ k := h (k', v') (List.mem_cons_self _ _)
      simp only [alLookup, if_neg (fun he : k = k' => hk' he.symm)]
      exact alLookup_eq_none_of_forall_ne (fun x hx => h x (List.mem_cons_of_mem _ hx))

theorem alLookup_alRemove_self {k : String} :
    ∀ {m : List (String × String)}, ladderSorted m →
      alLookup (alRemove m k) k = none
  | [], _ => rfl
  | (k', v') :: t, h => by
      rw [ladderSorted, List.pairwise_cons] at h
      obtain ⟨hk', ht⟩ := h
      simp only [alRemove]
      by_cases h1 : k = k'
      · rw [if_pos h1]
        exact alLookup_eq_none_of_forall_ne
          (fun x hx => fun he => (strLtB_ne (hk' x hx)) (by rw [he, h1]))
      · rw [if_neg h1]
        simp only [alLookup, if_neg h1]
        exact alLookup_alRemove_self ht

theorem alLookup_alRemove_ne {q k : String} (hqk : q ≠ k) :
    ∀ m : List (String × String), alLookup (alRemove m k) q = alLookup m q
  | [] => rfl
  | (k', v') :: t => by
      simp only [alRemove]
      by_cases h1 : k = k'
      · rw [if_pos h1]
        simp only [alLookup, if_neg (h1 ▸ hqk)]
      · rw [if_neg h1]
        by_cases h3 : q = k'
        · simp only [alLookup, if_pos h3]
        · simp only [alLookup, if_neg h3]
          exact alLookup_alRemove_ne hqk t

theorem ladderSorted_applyDiffLevel {m : List (String × String)}
    (h : ladderSorted m) (level : List String) :
    ladderSorted (applyDiffLevel m level) := by
  match level with
  | [] => exact h
  | [_] => exact h
  | p :: a :: tl =>
    simp only [applyDiffLevel]
    by_cases hz : a = "0" ∨ a = "0.0000"
    · rw [if_pos hz]; exact ladderSorted_alRemove h
    · rw [if_neg hz]; exact ladderSorted_alInsert h

theorem ladderSorted_applyWholeLevel {m : List (String × String)}
    (h : ladderSorted m) (level : List String) :
    ladderSorted (applyWholeLevel m level) := by
  match level with
  | [] => exact h
  | [_] => exact h
  | p :: a :: tl => exact ladderSorted_alInsert h

theorem ladderSorted_foldl_applyDiffLevel :
    ∀ (levels : List (List String)) {m : List (String × String)},
      ladderSorted m → ladderSorted (levels.foldl applyDiffLevel m)
  | [], _, h => h
  | level :: rest, _, h =>
      ladderSorted_foldl_applyDiffLevel rest (ladderSorted_applyDiffLevel h level)

theorem ladderSorted_foldl_applyWholeLevel :
    ∀ (levels : List (List String)) {m : List (String × String)},
      ladderSorted m → ladderSorted (levels.foldl applyWholeLevel m)
  | [], _, h => h
  | level :: rest, _, h =>
      ladderSorted_foldl_applyWholeLevel rest (ladderSorted_applyWholeLevel h level)

theorem wf_new (p : String) : (OrderBook.new p).Wf :=
  ⟨List.Pairwise.nil, List.Pairwise.nil⟩

theorem wf_apply_whole (b : OrderBook) (dep : Depth) : (apply_whole b dep).Wf :=
  ⟨ladderSorted_foldl_applyWholeLevel dep.asks List.Pairwise.nil,
   ladderSorted_foldl_applyWholeLevel dep.bids List.Pairwise.nil⟩

theorem wf_apply_diff {b : OrderBook} (h : b.Wf) (d : DepthDiff) :
    (apply_diff b d).Wf := by
  unfold apply_diff
  by_cases hs : d.s ≤ b.sequence
  · rw [if_pos hs]; exact h
  · rw [if_neg hs]
    exact ⟨ladderSorted_foldl_applyDiffLevel d.asks h.1,
           ladderSorted_foldl_applyDiffLevel d.bids h.2⟩

theorem apply_diff_of_le {b : OrderBook} {d : DepthDiff}
    (h : d.s ≤ b.sequence) : apply_diff b d = b := by
  simp [apply_diff, h]

theorem apply_diff_sequence (b : OrderBook) (d : DepthDiff) :
    (apply_diff b d).sequence = if d.s ≤ b.sequence then b.sequence else d.s := by
  by_cases h : d.s ≤ b.sequence <;> simp [apply_diff, h]

theorem sequence_le_apply_diff (b : OrderBook) (d : DepthDiff) :
    b.sequence ≤ (apply_diff b d).sequence := by
  rw [apply_diff_sequence]
  by_cases h : d.s ≤ b.sequence
  · simp [h]
  · simp [h]; omega

theorem failDelays_getD :
    ∀ (n : Nat) (b i : Nat), 1 ≤ b → b ≤ 64 → i < n →
      (failDelays b n).getD i 0 = min (b * 2 ^ i) 64
  | 0, _, _, _, _, hi => absurd hi (Nat.not_lt_zero _)
  | n + 1, b, 0, hb1, hb64, _ => by
      simp only [failDelays, List.getD_cons_zero, pow_zero, mul_one]
      omega
  | n + 1, b, i + 1, hb1, hb64, hi => by
      have hrec := failDelays_getD n (min (b * 2) 64) i
        (le_min (by omega) (by omega)) (min_le_right _ _) (by omega)
      simp only [failDelays, List.getD_cons_succ]
      rw [hrec]
      rcases le_or_lt (b * 2) 64 with h | h
      · rw [min_eq_left h, pow_succ]
        ring_nf
      · rw [min_eq_right (le_of_lt h)]
        have h1 : 64 ≤ 64 * 2 ^ i :=
          Nat.le_mul_of_pos_right 64 (Nat.pos_pow_of_pos i (by omega))
        have h2 : 64 ≤ b * 2 ^ (i + 1) := by
          rw [pow_succ]
          calc 64 ≤ b * 2 := le_of_lt h
          _ ≤ b * 2 * 2 ^ i := Nat.le_mul_of_pos_right _ (Nat.pos_pow_of_pos i (by omega))
          _ = b * (2 ^ i * 2) := by ring
        rw [min_eq_right h1, min_eq_right h2]

theorem dcRun_replicate_fail (n : Nat) :
    ∀ b : Nat, (dcRun b (List.replicate n .fail)).2 = failDelays b n := by
  induction n with
  | zero => intro b; simp [dcRun, failDelays]
  | succ n ih =>
    intro b
    simp only [List.replicate, dcRun, failDelays]
    rw [ih]

theorem pnRun_replicate_fail (n : Nat) :
    ∀ b : Nat, (pnRun b (List.replicate n .fail)).2 = failDelays b n := by
  induction n with
  | zero => intro b; simp [pnRun, failDelays]
  | succ n ih =>
    intro b
    simp only [List.replicate, pnRun, failDelays]
    rw [ih]

theorem hmLookup_hmInsert_self {α β : Type} [DecidableEq α] :
    ∀ (m : List (α × β)) (k : α) (v : β), hmLookup (hmInsert m k v) k = some v
  | [], k, v => by simp [hmInsert, hmLookup]
  | (k', v') :: t, k, v => by
      simp only [hmInsert]
      by_cases h : k' = k
      · rw [if_pos h]; simp [hmLookup]
      · rw [if_neg h]
        simp only [hmLookup, if_neg h]
        exact hmLookup_hmInsert_self t k v

theorem processMessage_fold_deliveries (et : String) :
    ∀ (params : List Json) (orders : List (Nat × Order))
      (acc : List (String × String)),
      (params.foldl
        (fun acc param =>
          let r := processParam acc.1 et param
          (r.1, acc.2 ++ [r.2]))
        (orders, acc)).2
      = acc ++ params.map (fun p => (et, jsonToString p))
  | [], orders, acc => by simp
  | p :: rest, orders, acc => by
      simp only [List.foldl_cons, List.map_cons]
      rw [processMessage_fold_deliveries et rest]
      simp [processParam]

theorem getD_mem_of_lt {α : Type} (l : List α) (i : Nat) (d : α)
    (h : i < l.length) : l.getD i d ∈ l := by
  rw [List.getD_eq_getElem l d h]
  exact List.getElem_mem h

theorem hexByteChars_mem (b : Nat) {c : Char} (hc : c ∈ hexByteChars b) :
    c ∈ hexDigitChars := by
  simp only [hexByteChars, List.mem_cons, List.not_mem_nil, or_false] at hc
  rcases hc with rfl | rfl
  · exact getD_mem_of_lt _ _ _ (by rw [show hexDigitChars.length = 16 from rfl]; omega)
  · exact getD_mem_of_lt _ _ _ (by rw [show hexDigitChars.length = 16 from rfl]; omega)

theorem hexEncodeLower_chars {bytes : List Nat} {c : Char}
    (hc : c ∈ (hexEncodeLower bytes).toList) : c ∈ hexDigitChars := by
  simp only [hexEncodeLower] at hc
  rcases List.mem_flatten.mp hc with ⟨l, hl, hcl⟩
  rcases List.mem_map.mp hl with ⟨b, _, rfl⟩
  exact hexByteChars_mem b hcl

set_option maxRecDepth 100000 in
theorem sha256_abc_vector :
    hexEncodeLower (sha256 (strBytes "abc"))
      = "ba7816bf8f01cfea414140de5dae2223b00361a396177a9cb410ff61f20015ad" := by
  decide

set_option maxRecDepth 100000 in
theorem hmac_jefe_vector :
    generate_signature "Jefe" "what do ya want for nothing?"
      = "5bdcc146bf60754e6a042426089575c75a003f089d2739839dec58b964ec3843" := by
  decide

end Bitbank

/-! Claim theorems. -/

open Bitbank

/-- C1: a diff whose sequence is ≤ the book's current sequence leaves the book
(both ladders, sequence and timestamp) unchanged; applying the same diff
twice equals applying it once; and for `d1.s < d2.s`, applying `d2` then
`d1` equals applying `d2` alone. -/
theorem claim_c1_diff_noop_idempotent_ordered
    (b : OrderBook) (d d' d1 d2 : DepthDiff)
    (h : d.s ≤ b.sequence) (h12 : d1.s < d2.s) :
    apply_diff b d = b ∧
    apply_diff (apply_diff b d') d' = apply_diff b d' ∧
    apply_diff (apply_diff b d2) d1 = apply_diff b d2 := by
  refine ⟨apply_diff_of_le h, ?_, ?_⟩
  · apply apply_diff_of_le
    rw [apply_diff_sequence]
    by_cases h' : d'.s ≤ b.sequence
    · simp [h']
    · simp [h']
  · apply apply_diff_of_le
    rw [apply_diff_sequence]
    by_cases h2 : d2.s ≤ b.sequence
    · simp [h2]; omega
    · simp [h2]; omega

/-- Witness for C1 at a concrete book and concrete diffs. -/
theorem claim_c1_witness :
    apply_diff (OrderBook.new "btc_jpy") ⟨[], [], 10, 0⟩ = OrderBook.new "btc_jpy" ∧
    apply_diff (apply_diff (OrderBook.new "btc_jpy") ⟨[["5","1"]], [], 11, 3⟩)
        ⟨[["5","1"]], [], 11, 3⟩ =
      apply_diff (OrderBook.new "btc_jpy") ⟨[["5","1"]], [], 11, 3⟩ ∧
    apply_diff (apply_diff (OrderBook.new "btc_jpy") ⟨[], [], 12, 7⟩) ⟨[], [], 13, 2⟩ =
      apply_diff (OrderBook.new "btc_jpy") ⟨[], [], 12, 7⟩ :=
  claim_c1_diff_noop_idempotent_ordered (OrderBook.new "btc_jpy")
    ⟨[], [], 10, 0⟩ ⟨[["5","1"]], [], 11, 3⟩ ⟨[], [], 13, 2⟩ ⟨[], [], 12, 7⟩
    (by decide) (by decide)

/-- C2 counterexample: `apply_whole` resets the sequence unconditionally, so a
snapshot without a sequence (`s = none`) applied to a reachable book at
sequence 5 drops the sequence to 0 — the sequence is **not** non-decreasing
across `apply_whole`. -/
theorem claim_c2_counterexample :
    (apply_whole (apply_diff (OrderBook.new "btc_jpy") ⟨[], [], 100, 5⟩)
        ⟨[], [], 200, none⟩).sequence
      < (apply_diff (OrderBook.new "btc_jpy") ⟨[], [], 100, 5⟩).sequence := by
  decide

/-- C2 (amended): the sequence is non-decreasing under `apply_diff`;
`apply_whole` instead sets the sequence unconditionally to the snapshot's
sequence (0 when absent), which may be lower than the current one. -/
theorem claim_c2_sequence_behaviour (b : OrderBook) (d : DepthDiff) (dep : Depth) :
    b.sequence ≤ (apply_diff b d).sequence ∧
    (apply_whole b dep).sequence = dep.s.getD 0 :=
  ⟨sequence_le_apply_diff b d, rfl⟩

/-- C3 counterexample: the ladders are keyed by raw strings in a `BTreeMap`,
so ordering is byte-wise lexicographic.  A book holding asks at prices `"9"`
and `"10"` returns them as `["10", _], ["9", _]` — decimal value 10 before 9,
which is **not** ascending by parsed decimal value. -/
theorem claim_c3_counterexample :
    get_asks (apply_whole (OrderBook.new "btc_jpy")
        ⟨[["10", "1"], ["9", "2"]], [], 100, some 1⟩) = [["10", "1"], ["9", "2"]] ∧
    decimalLtB "9" "10" = true ∧
    ¬ ((get_asks (apply_whole (OrderBook.new "btc_jpy")
          ⟨[["10", "1"], ["9", "2"]], [], 100, some 1⟩)).map
            (fun l => l.getD 0 "")).Pairwise (fun x y => decimalLtB x y = true) := by
  refine ⟨by decide, by decide, by decide⟩

/-- C3 (amended): for every well-formed book, `get_asks` lists prices in
strictly ascending **byte-wise lexicographic string** order and `get_bids`
in strictly descending lexicographic order (this coincides with decimal
order only when the price strings share a uniform format); well-formedness
holds for every reachable state (`new`, `apply_whole` and `apply_diff`
preserve it). -/
theorem claim_c3_lexicographic_not_decimal
    (b : OrderBook) (p : String) (dep : Depth) (d : DepthDiff) (h : b.Wf) :
    ((get_asks b).map (fun l => l.getD 0 "")).Pairwise
      (fun x y => strLtB x y = true) ∧
    ((get_bids b).map (fun l => l.getD 0 "")).Pairwise
      (fun x y => strLtB y x = true) ∧
    (OrderBook.new p).Wf ∧ (apply_whole b dep).Wf ∧ (apply_diff b d).Wf := by
  refine ⟨?_, ?_, wf_new p, wf_apply_whole b dep, wf_apply_diff h d⟩
  · have := h.1
    rw [ladderSorted] at this
    simpa [get_asks, List.map_map, List.pairwise_map] using this
  · have := h.2
    rw [ladderSorted] at this
    rw [get_bids, List.map_map, List.pairwise_map, List.pairwise_reverse]
    simpa [flip] using this

/-- Witness for C3 (amended) at a concrete well-formed book. -/
theorem claim_c3_witness :
    ((get_asks (OrderBook.new "btc_jpy")).map (fun l => l.getD 0 "")).Pairwise
      (fun x y => strLtB x y = true) ∧
    ((get_bids (OrderBook.new "btc_jpy")).map
        (fun l => l.getD 0 "")).Pairwise (fun x y => strLtB y x = true) ∧
    (OrderBook.new "xrp_jpy").Wf ∧
    (apply_whole (OrderBook.new "btc_jpy") ⟨[["5", "1"]], [], 7, some 2⟩).Wf ∧
    (apply_diff (OrderBook.new "btc_jpy") ⟨[["5", "1"]], [], 7, 2⟩).Wf :=
  claim_c3_lexicographic_not_decimal (OrderBook.new "btc_jpy") "xrp_jpy"
    ⟨[["5", "1"]], [], 7, some 2⟩ ⟨[["5", "1"]], [], 7, 2⟩
    ⟨List.Pairwise.nil, List.Pairwise.nil⟩

/-- C4 counterexample: only the exact strings `"0"` and `"0.0000"` delete a
level.  The zero representation `"0.00"` does **not** delete: an accepted
diff carrying amount `"0.00"` at price `"100"` leaves the level present
(upserted with amount `"0.00"`). -/
theorem claim_c4_counterexample :
    (apply_whole (OrderBook.new "btc_jpy")
        ⟨[["100", "1"]], [], 5, some 1⟩).sequence < 2 ∧
    alLookup (apply_diff (apply_whole (OrderBook.new "btc_jpy")
        ⟨[["100", "1"]], [], 5, some 1⟩) ⟨[["100", "0.00"]], [], 6, 2⟩).asks "100"
      = some "0.00" := by
  exact ⟨by decide, by decide⟩

/-- C4 (amended): for a diff level `p :: a :: _` applied to a sorted ladder,
the price `p` is removed exactly when the amount is the literal `"0"` or
`"0.0000"` (other zero spellings such as `"0.00"` are upserted like any
other amount); other prices are untouched; and an accepted diff processes
its levels by folding this level operation over both ladders. -/
theorem claim_c4_zero_literal_only
    (m : List (String × String)) (hm : ladderSorted m) (p a : String)
    (rest : List String) (b : OrderBook) (d : DepthDiff)
    (hacc : b.sequence < d.s) :
    (a = "0" ∨ a = "0.0000" →
      alLookup (applyDiffLevel m (p :: a :: rest)) p = none) ∧
    (¬ (a = "0" ∨ a = "0.0000") →
      alLookup (applyDiffLevel m (p :: a :: rest)) p = some a) ∧
    (∀ q, q ≠ p →
      alLookup (applyDiffLevel m (p :: a :: rest)) q = alLookup m q) ∧
    (apply_diff b d).asks = d.asks.foldl applyDiffLevel b.asks ∧
    (apply_diff b d).bids = d.bids.foldl applyDiffLevel b.bids := by
  have hns : ¬ d.s ≤ b.sequence := by omega
  refine ⟨?_, ?_, ?_, ?_, ?_⟩
  · intro hz
    simp only [applyDiffLevel, if_pos hz]
    exact alLookup_alRemove_self hm
  · intro hz
    simp only [applyDiffLevel, if_neg hz]
    exact alLookup_alInsert_self m
  · intro q hq
    simp only [applyDiffLevel]
    by_cases hz : a = "0" ∨ a = "0.0000"
    · rw [if_pos hz]
      exact alLookup_alRemove_ne hq m
    · rw [if_neg hz]
      exact alLookup_alInsert_ne hq m
  · simp [apply_diff, hns]
  · simp [apply_diff, hns]

/-- Witness for C4 (amended) at a concrete sorted ladder and accepted diff. -/
theorem claim_c4_witness :
    (("0" : String) = "0" ∨ ("0" : String) = "0.0000" →
      alLookup (applyDiffLevel [("100", "1")] ["100", "0"]) "100" = none) ∧
    (¬ (("0" : String) = "0" ∨ ("0" : String) = "0.0000") →
      alLookup (applyDiffLevel [("100", "1")] ["100", "0"]) "100" = some "0") ∧
    (∀ q, q ≠ "100" →
      alLookup (applyDiffLevel [("100", "1")] ["100", "0"]) q
        = alLookup [("100", "1")] q) ∧
    (apply_diff (OrderBook.new "btc_jpy") ⟨[], [], 9, 3⟩).asks
      = List.foldl applyDiffLevel (OrderBook.new "btc_jpy").asks [] ∧
    (apply_diff (OrderBook.new "btc_jpy") ⟨[], [], 9, 3⟩).bids
      = List.foldl applyDiffLevel (OrderBook.new "btc_jpy").bids [] :=
  claim_c4_zero_literal_only [("100", "1")] (by simp [ladderSorted]) "100" "0" []
    (OrderBook.new "btc_jpy") ⟨[], [], 9, 3⟩ (by decide)

/-- C5: the string signed for a private request is the timestamp followed by
the endpoint path (plus `?` and the urlencoded query when present) for GET,
and the timestamp followed by the raw body text (empty when absent) for
every other method; the signature is the lowercase-hex encoding of
HMAC-SHA256 of that string under the API secret; the signature is
deterministic in (secret, payload); and the HMAC-SHA256 model reproduces
the RFC 4231 test vector (key `"Jefe"`). -/
theorem claim_c5_signing (e bd t s x : String) (q : List (String × String))
    (m : HttpMethod) (hm : m ≠ HttpMethod.GET) :
    textToSign .GET e (some q) (some bd) t = t ++ (e ++ "?" ++ formUrlencode q) ∧
    textToSign .GET e none (some bd) t = t ++ e ∧
    textToSign m e (some q) (some bd) t = t ++ bd ∧
    textToSign m e (some q) none t = t ++ "" ∧
    generate_signature s x = hexEncodeLower (hmacSha256 (strBytes s) (strBytes x)) ∧
    generate_signature s x = generate_signature s x ∧
    (∀ c ∈ (generate_signature s x).toList, c ∈ hexDigitChars) ∧
    generate_signature "Jefe" "what do ya want for nothing?"
      = "5bdcc146bf60754e6a042426089575c75a003f089d2739839dec58b964ec3843" := by
  refine ⟨rfl, rfl, ?_, ?_, rfl, rfl, ?_, ?_⟩
  · simp [textToSign, hm]
  · simp [textToSign, hm]
  · intro c hc
    exact hexEncodeLower_chars hc
  · exact hmac_jefe_vector

/-- Witness for C5 at a concrete POST request and signing payload. -/
theorem claim_c5_witness :
    textToSign .GET "/v1/user/spot/order" (some [("pair", "btc_jpy")])
        (some "\x7b\x7d") "1700000000000"
      = "1700000000000" ++
        ("/v1/user/spot/order" ++ "?" ++ formUrlencode [("pair", "btc_jpy")]) ∧
    textToSign .GET "/v1/user/spot/order" none (some "\x7b\x7d") "1700000000000"
      = "1700000000000" ++ "/v1/user/spot/order" ∧
    textToSign .POST "/v1/user/spot/order" (some [("pair", "btc_jpy")])
        (some "\x7b\x7d") "1700000000000" = "1700000000000" ++ "\x7b\x7d" ∧
    textToSign .POST "/v1/user/spot/order" (some [("pair", "btc_jpy")])
        none "1700000000000" = "1700000000000" ++ "" ∧
    generate_signature "secret" "payload"
      = hexEncodeLower (hmacSha256 (strBytes "secret") (strBytes "payload")) ∧
    generate_signature "secret" "payload" = generate_signature "secret" "payload" ∧
    (∀ c ∈ (generate_signature "secret" "payload").toList, c ∈ hexDigitChars) ∧
    generate_signature "Jefe" "what do ya want for nothing?"
      = "5bdcc146bf60754e6a042426089575c75a003f089d2739839dec58b964ec3843" :=
  claim_c5_signing "/v1/user/spot/order" "\x7b\x7d" "1700000000000" "secret" "payload"
    [("pair", "btc_jpy")] .POST (by decide)

/-- C6 counterexample: a 2xx body whose `success` field is the non-integer
string `"1"` is silently defaulted to 0 and routed to the error path, and an
integer `success == 0` body with missing `data.code` / `data.message` is
defaulted to `code = 0`, `message = "Unknown error"` — in both cases
producing an `ExchangeError`, not a decode-failure error kind. -/
theorem claim_c6_counterexample :
    processBody (fun j => Except.ok j) "raw-body"
        (Json.obj [("success", Json.str "1"), ("data", Json.obj [])])
      = .error (.ExchangeError 0 "Unknown error") ∧
    processBody (fun j => Except.ok j) "raw-body"
        (Json.obj [("success", Json.num 0), ("data", Json.obj [])])
      = .error (.ExchangeError 0 "Unknown error") ∧
    isDecodeFailure (.ExchangeError 0 "Unknown error") = false :=
  ⟨rfl, rfl, rfl⟩

/-- C6 (amended): the envelope takes the error path exactly when `success`
read via `as_i64` is not the integer 1 — a missing or non-integer `success`
is silently defaulted to 0, and an integer `success == 0` lands there too.
In that path a present `data` object has `code` / `message` read with
defaults 0 / `"Unknown error"` into an `ExchangeError`, which is not a
decode-failure kind; a missing `data` object yields `Unknown`.  Under
`success == 1`, a missing `data` yields `Unknown`, a `data` payload that
fails to decode yields `ParseError` (both decode-failure kinds), and a
successful decode yields no error — so decode-failure kinds arise only from
those paths, never from the defaulted reads. -/
theorem claim_c6_silent_defaults {T : Type} (dec : Json → Except String T)
    (text : String) (val data : Json) :
    ((val.get "success").bind Json.as_i64 ≠ some 1 →
      (val.get "data" = some data →
        processBody dec text val
          = .error (.ExchangeError
              (toI32 (((data.get "code").bind Json.as_i64).getD 0))
              (((data.get "message").bind Json.as_str).getD "Unknown error")) ∧
        isDecodeFailure (BitbankError.ExchangeError
            (toI32 (((data.get "code").bind Json.as_i64).getD 0))
            (((data.get "message").bind Json.as_str).getD "Unknown error"))
          = false) ∧
      (val.get "data" = none →
        processBody dec text val
          = .error (.Unknown ("Success=0 and no data. Body: " ++ text)) ∧
        isDecodeFailure
            (BitbankError.Unknown ("Success=0 and no data. Body: " ++ text))
          = true)) ∧
    ((val.get "success").bind Json.as_i64 = some 1 →
      (val.get "data" = none →
        processBody dec text val
          = .error (.Unknown ("Success=1 but no data. Body: " ++ text)) ∧
        isDecodeFailure
            (BitbankError.Unknown ("Success=1 but no data. Body: " ++ text))
          = true) ∧
      (val.get "data" = some data →
        (∀ err, dec data = .error err →
          processBody dec text val = .error (.ParseError err) ∧
          isDecodeFailure (BitbankError.ParseError err) = true) ∧
        (∀ r, dec data = .ok r → processBody dec text val = .ok r))) := by
  constructor
  · intro h1
    have hne : ¬ (((val.get "success").bind Json.as_i64).getD 0 = 1) := by
      rcases ho : (val.get "success").bind Json.as_i64 with _ | v
      · simp
      · simp only [Option.getD_some]
        intro hv
        exact h1 (by rw [ho, hv])
    constructor
    · intro hd
      exact ⟨by simp [processBody, hne, hd], rfl⟩
    · intro hd
      exact ⟨by simp [processBody, hne, hd], rfl⟩
  · intro h1
    have heq : (((val.get "success").bind Json.as_i64).getD 0 = 1) := by
      rw [h1]; rfl
    constructor
    · intro hd
      exact ⟨by simp [processBody, heq, hd], rfl⟩
    · intro hd
      constructor
      · intro err he
        exact ⟨by simp [processBody, heq, hd, he], rfl⟩
      · intro r hr
        simp [processBody, heq, hd, hr]

/-- Witness for C6 (amended): an integer `success == 0` body with an empty
`data` object is defaulted into an `ExchangeError`, and a `success == 1`
body whose `data` fails to decode produces a `ParseError`. -/
theorem claim_c6_witness :
    (processBody (fun j => Except.ok j) "B"
        (Json.obj [("success", Json.num 0), ("data", Json.obj [])])
      = .error (.ExchangeError 0 "Unknown error") ∧
     isDecodeFailure (BitbankError.ExchangeError 0 "Unknown error") = false) ∧
    (processBody (fun _ => (Except.error "bad" : Except String Json)) "B"
        (Json.obj [("success", Json.num 1), ("data", Json.null)])
      = .error (.ParseError "bad") ∧
     isDecodeFailure (BitbankError.ParseError "bad") = true) :=
  ⟨((claim_c6_silent_defaults (fun j => Except.ok j) "B"
        (Json.obj [("success", Json.num 0), ("data", Json.obj [])])
        (Json.obj [])).1 (by decide)).1 rfl,
   (((claim_c6_silent_defaults (fun _ => (Except.error "bad" : Except String Json))
        "B" (Json.obj [("success", Json.num 1), ("data", Json.null)])
        Json.null).2 rfl).2 rfl).1 "bad" rfl⟩

/-- C7: in both the streaming-feed reconnect loop (`data_client.rs`) and the
private long-poll loop (`pubnub.rs`), starting from a fresh backoff of 1,
the delay slept after the Nth consecutive failure (retry index `i = N - 1`)
equals `min(2^(N-1), 64)`; and any success resets the next delay to 1: the
streaming-loop iteration following a success sleeps exactly 1, and the
poll loop's first failure after a success sleeps exactly 1. -/
theorem claim_c7_backoff_shape (n i : Nat) (hi : i < n) :
    (dcRun 1 (List.replicate n .fail)).2.getD i 0 = min (2 ^ i) 64 ∧
    (pnRun 1 (List.replicate n .fail)).2.getD i 0 = min (2 ^ i) 64 ∧
    (∀ rest, (dcRun 64 (.ok :: rest)).2.getD 0 0 = 1) ∧
    (∀ rest, (pnRun 64 (.ok :: .fail :: rest)).2.getD 0 0 = 1) := by
  refine ⟨?_, ?_, ?_, ?_⟩
  · rw [dcRun_replicate_fail]
    simpa using failDelays_getD n 1 i (le_refl 1) (by omega) hi
  · rw [pnRun_replicate_fail]
    simpa using failDelays_getD n 1 i (le_refl 1) (by omega) hi
  · intro rest; rfl
  · intro rest; rfl

/-- Witness for C7 at `N = 8` consecutive failures (delay capped at 64). -/
theorem claim_c7_witness :
    (dcRun 1 (List.replicate 8 .fail)).2.getD 7 0 = min (2 ^ 7) 64 ∧
    (pnRun 1 (List.replicate 8 .fail)).2.getD 7 0 = min (2 ^ 7) 64 ∧
    (∀ rest, (dcRun 64 (.ok :: rest)).2.getD 0 0 = 1) ∧
    (∀ rest, (pnRun 64 (.ok :: .fail :: rest)).2.getD 0 0 = 1) :=
  claim_c7_backoff_shape 8 7 (by decide)

/-- C8: on a successful `create_order`, `submit_order` inserts the returned
order into the cache keyed by its exchange id, maps the client id to that
exchange id, and returns the serialised order; on any failure the error
propagates and neither map is modified. -/
theorem claim_c8_submit_order (st : ExecState) (cid : String) (o : Order)
    (e : BitbankError) :
    submit_order st cid (.ok o)
      = (.ok (serializeOrder o),
         { orders := hmInsert st.orders o.order_id o,
           client_oid_map := hmInsert st.client_oid_map cid o.order_id }) ∧
    hmLookup (hmInsert st.orders o.order_id o) o.order_id = some o ∧
    hmLookup (hmInsert st.client_oid_map cid o.order_id) cid = some o.order_id ∧
    submit_order st cid (.error e) = (.error e, st) := by
  refine ⟨?_, hmLookup_hmInsert_self _ _ _, hmLookup_hmInsert_self _ _ _, rfl⟩
  have hlk := hmLookup_hmInsert_self st.orders o.order_id o
  simp [submit_order, hlk]

/-- C9: for a private-feed message whose envelope parses, the internal loop
produces exactly one delivery to the external sink per `params` entry, in
array order, carrying the mapped event kind and the serialised raw payload —
independent of whether decoding the entry as an `Order` (for the cache)
succeeds. -/
theorem claim_c9_one_delivery_per_param (orders : List (Nat × Order))
    (msg : PubNubMessage) :
    (processPrivateMessage orders msg).2
      = msg.data.params.map
          (fun p => (eventTypeOf msg.data.method, jsonToString p)) ∧
    (processPrivateMessage orders msg).2.length = msg.data.params.length ∧
    (∀ (os : List (Nat × Order)) (et : String) (p : Json),
      (processParam os et p).2 = (et, jsonToString p)) := by
  refine ⟨?_, ?_, fun _ _ _ => rfl⟩
  · simpa [processPrivateMessage]
      using processMessage_fold_deliveries (eventTypeOf msg.data.method)
        msg.data.params orders []
  · rw [show (processPrivateMessage orders msg).2
          = msg.data.params.map
              (fun p => (eventTypeOf msg.data.method, jsonToString p)) from by
        simpa [processPrivateMessage]
          using processMessage_fold_deliveries (eventTypeOf msg.data.method)
            msg.data.params orders []]
    exact List.length_map _ _

/-- C10: `get_top_n n` returns exactly the first `min n (length)` entries of
`get_asks` / `get_bids`, in the same order with the same contents. -/
theorem claim_c10_top_n_take (b : OrderBook) (n : Nat) :
    (get_top_n b n).1 = (get_asks b).take n ∧
    (get_top_n b n).2 = (get_bids b).take n ∧
    (get_top_n b n).1.length = min n (get_asks b).length ∧
    (get_top_n b n).2.length = min n (get_bids b).length := by
  refine ⟨?_, ?_, ?_, ?_⟩
  · simp [get_top_n, get_asks, List.map_take]
  · simp [get_top_n, get_bids, List.map_take]
  · simp [get_top_n, get_asks]
  · simp [get_top_n, get_bids]
